import Mathlib

/-!
Verification of the Audiobook read-along engine (`src/web/reader.js`).

The JavaScript source is shallowly embedded: pure fragments become Lean
functions, stateful fragments become explicit state passing.  Playback
times are modelled as rationals (JS numbers under the order-theoretic
operations the code uses); epoch-millisecond clocks are modelled as
integers, and ISO `createdAt` stamps as integers ordered like the
chronological order of the strings they abstract.
-/

namespace Reader

/-- A timing-map entry (`{ id, start, end, text }` in `timing.json`).
The JS field `end` is a Lean keyword, rendered here as `stop`. -/
structure TimingEntry where
  id : Nat
  start : ℚ
  stop : ℚ
  text : String
deriving Repr, DecidableEq

/-- The scan loop of `highlightCurrentSentence` (reader.js lines 906-916):
walk the entries with running index `i`; inside a window `[start, end)`
return `i`; strictly before a window return `i - 1` (or `-1` at the
head); otherwise continue with the next entry. -/
def scanEntries (time : ℚ) : List TimingEntry → Nat → Int
  | [], _ => -1
  | e :: rest, i =>
    if e.start ≤ time ∧ time < e.stop then (i : Int)
    else if time < e.start then (if 0 < i then (i : Int) - 1 else -1)
    else scanEntries time rest (i + 1)

/-- The sentence-locate computation of `highlightCurrentSentence`
(reader.js lines 905-921): the scan, then the trailing-silence fixup
`if (currentIndex === -1 && entries.length > 0 && currentTime >=
entries[entries.length-1].start) currentIndex = entries.length - 1`. -/
def locate (entries : List TimingEntry) (time : ℚ) : Int :=
  let idx := scanEntries time entries 0
  match entries.getLast? with
  | some last =>
      if idx = -1 ∧ last.start ≤ time then (entries.length : Int) - 1 else idx
  | none => idx

/-- Entries sorted by `start` ascending (the spec's ordering invariant). -/
def SortedByStart (entries : List TimingEntry) : Prop :=
  entries.Pairwise (fun a b => a.start ≤ b.start)

/-- Pairwise set-disjoint `[start, end)` windows. -/
def DisjointWindows (entries : List TimingEntry) : Prop :=
  entries.Pairwise
    (fun a b => ∀ u : ℚ, ¬ (a.start ≤ u ∧ u < a.stop ∧ b.start ≤ u ∧ u < b.stop))

/-- Sample entry A of the spec's test vectors (`{id:A,start:0,end:2}`). -/
def entryA : TimingEntry := ⟨0, 0, 2, "A"⟩

/-- Sample entry B of the spec's test vectors (`{id:B,start:5,end:8}`). -/
def entryB : TimingEntry := ⟨1, 5, 8, "B"⟩

/-! ## Sleep timer (reader.js lines 1715-1770) -/

/-- `this.sleepTimerMode`: `'minutes'` or `'chapter'` (`null` is modelled
by `Option.none` at the use sites). -/
inductive SleepMode where
  | minutes
  | chapter
deriving Repr, DecidableEq

/-- The sleep-timer fields of the reader:
`sleepTimerEnd : number | null` and `sleepTimerMode : string | null`. -/
structure SleepTimerState where
  sleepTimerEnd : Option Int
  sleepTimerMode : Option SleepMode
deriving Repr, DecidableEq

/-- The idle timer state (both fields `null`). -/
def idleTimer : SleepTimerState := ⟨none, none⟩

/-- `cancelSleepTimer()` (lines 1765-1770): resets both fields to `null`. -/
def cancelSleepTimer (_s : SleepTimerState) : SleepTimerState := ⟨none, none⟩

/-- The argument of `setSleepTimer(value)`: `'0'` cancels, `'chapter'`
latches end-of-chapter, a numeric string sets a countdown in minutes. -/
inductive SleepSetting where
  | cancel
  | chapter
  | minutes (m : Nat)
deriving Repr, DecidableEq

/-- `setSleepTimer(value)` (lines 1715-1738): always cancels the previous
timer first; then either returns (`'0'`), latches `'chapter'` mode, or
sets `sleepTimerEnd = Date.now() + minutes*60*1000` in `'minutes'` mode. -/
def setSleepTimer (s : SleepTimerState) (value : SleepSetting) (now : Int) :
    SleepTimerState :=
  let s0 := cancelSleepTimer s
  match value with
  | .cancel => s0
  | .chapter => { s0 with sleepTimerMode := some .chapter }
  | .minutes m =>
      { s0 with
        sleepTimerMode := some .minutes
        sleepTimerEnd := some (now + (m : Int) * 60 * 1000) }

/-- JS truthiness of `this.sleepTimerEnd` (a number or `null`):
falsy when `null` or `0`. -/
def endFalsy : Option Int → Bool
  | none => true
  | some v => v == 0

/-- `checkSleepTimer()` (lines 1743-1760), run once per playback tick.
Returns the new state and whether `audio.pause()` fired on this tick.
The early return mirrors `if (!sleepTimerEnd && mode !== 'chapter')`;
in `'minutes'` mode `remaining = max(0, sleepTimerEnd - now)` and at
`remaining <= 0` the audio is paused and the timer cancelled. -/
def checkSleepTimer (s : SleepTimerState) (now : Int) : SleepTimerState × Bool :=
  if endFalsy s.sleepTimerEnd ∧ s.sleepTimerMode ≠ some .chapter then (s, false)
  else if s.sleepTimerMode = some .minutes then
    if max 0 (s.sleepTimerEnd.getD 0 - now) ≤ 0 then (cancelSleepTimer s, true)
    else (s, false)
  else (s, false)

/-- Run `n` one-second playback ticks starting one second after `now`,
calling `checkSleepTimer` on each tick and counting fired pause events. -/
def runTicks (s : SleepTimerState) (now : Int) : Nat → SleepTimerState × Nat
  | 0 => (s, 0)
  | n + 1 =>
    let t := checkSleepTimer s (now + 1000)
    let r := runTicks t.1 (now + 1000) n
    (r.1, (if t.2 then 1 else 0) + r.2)

/-! ## Chapter end (reader.js lines 1060-1073) -/

/-- The externally visible effect of `onChapterEnd`. The source only ever
stops (no effect) or advances (`loadChapter(c+1)` then `audio.play()`);
`bookFinished` is the signal the spec describes, present in the
vocabulary so the spec's requirement can be stated. -/
inductive ChapterEndAction where
  | nothing
  | advance (next : Nat)
  | bookFinished
deriving Repr, DecidableEq

/-- `onChapterEnd()` (lines 1060-1073): if the sleep timer is latched to
`'chapter'`, cancel it and return; otherwise auto-advance if
`currentChapter < chapters.length - 1`; otherwise fall through doing
nothing. -/
def onChapterEnd (s : SleepTimerState) (currentChapter numChapters : Nat) :
    SleepTimerState × ChapterEndAction :=
  if s.sleepTimerMode = some SleepMode.chapter then (cancelSleepTimer s, .nothing)
  else if currentChapter < numChapters - 1 then (s, .advance (currentChapter + 1))
  else (s, .nothing)

/-! ## Progress persistence (reader.js lines 1777-1809) -/

/-- A saved progress record (`readalong-progress-<bookId>`). -/
structure Progress where
  bookId : String
  chapter : Nat
  position : ℚ
  updatedAt : Int
deriving Repr, DecidableEq

/-- The 30-day staleness window, in milliseconds. -/
def progressTTLMs : Int := 30 * 24 * 60 * 60 * 1000

/-- `getSavedProgress()` (lines 1793-1809): `stored` is the parsed record
under the book's key, or `none` when absent or unparsable; the record is
used only if `Date.now() - progress.updatedAt < 30*24*60*60*1000`. -/
def getSavedProgress (stored : Option Progress) (now : Int) : Option Progress :=
  match stored with
  | some p => if now - p.updatedAt < progressTTLMs then some p else none
  | none => none

/-! ## Bookmarks, notes, highlights (reader.js lines 1172-1520, 1816-1840) -/

/-- A bookmark record as built by `addBookmark` (lines 1179-1187). -/
structure Bookmark where
  id : String
  bookId : String
  chapter : Nat
  chapterTitle : String
  time : ℚ
  text : String
  createdAt : Int
deriving Repr, DecidableEq

/-- A note record as built by `saveNote` (lines 1338-1346). -/
structure Note where
  id : String
  bookId : String
  chapter : Nat
  sentenceId : Nat
  selectedText : String
  note : String
  createdAt : Int
deriving Repr, DecidableEq

/-- A highlight record as built by `addHighlight` (lines 1366-1374). -/
structure Highlight where
  id : String
  bookId : String
  chapter : Nat
  sentenceId : Nat
  text : String
  color : String
  createdAt : Int
deriving Repr, DecidableEq

/-- The book-listing filter of `renderBookmarks` (line 1233):
`this.bookmarks.filter(b => b.bookId === bookId)`, in stored order. -/
def bookBookmarks (bookmarks : List Bookmark) (bookId : String) : List Bookmark :=
  bookmarks.filter (fun b => b.bookId == bookId)

/-- The book-listing filter of `renderNotes` (line 1415). -/
def bookNotes (notes : List Note) (bookId : String) : List Note :=
  notes.filter (fun n => n.bookId == bookId)

/-- The book-listing filter of `renderHighlights` (line 1461). -/
def bookHighlights (highlights : List Highlight) (bookId : String) : List Highlight :=
  highlights.filter (fun h => h.bookId == bookId)

/-- A bookmark list sorted by `createdAt` descending (newest first) —
the ordering §4.4 of the spec requires of the unified listing. -/
def SortedByCreatedAtDesc (l : List Bookmark) : Prop :=
  l.Pairwise (fun a b => b.createdAt ≤ a.createdAt)

/-- The in-memory record sets of the reader
(`this.bookmarks`, `this.notes`, `this.highlights`). -/
structure AnnState where
  bookmarks : List Bookmark
  notes : List Note
  highlights : List Highlight
deriving Repr, DecidableEq

/-- The consolidated persisted document written under `readalong-bookdata`;
each field is `Option`al because JSON lookup of a key may miss. -/
structure BookDoc where
  bookmarks : Option (List Bookmark)
  notes : Option (List Note)
  highlights : Option (List Highlight)
deriving Repr, DecidableEq

/-- `saveBookData()` (lines 1833-1840): serialize the three in-memory
lists into one document. -/
def saveBookData (s : AnnState) : BookDoc :=
  ⟨some s.bookmarks, some s.notes, some s.highlights⟩

/-- `loadBookData()` (lines 1816-1828): when a stored document exists,
replace each in-memory list by `data.<field> || []` (the JS `||` on an
array yields the array itself, and `[]` only for a missing field);
when nothing is stored, leave the state unchanged. -/
def loadBookData (saved : Option BookDoc) (s : AnnState) : AnnState :=
  match saved with
  | none => s
  | some d => ⟨d.bookmarks.getD [], d.notes.getD [], d.highlights.getD []⟩

/-- The list mutation of `addHighlight()` (line 1376):
`this.highlights.push(highlight)`. -/
def addHighlight (s : AnnState) (h : Highlight) : AnnState :=
  { s with highlights := s.highlights ++ [h] }

/-! ## Seek and skip (reader.js lines 449-455, 1010-1014, 1137-1141) -/

/-- The `skip-back` button handler (line 451):
`currentTime = Math.max(0, currentTime - 10)`. -/
def skipBackBtn (t : ℚ) : ℚ := max 0 (t - 10)

/-- The `skip-forward` button handler (line 454):
`currentTime = Math.min(duration, currentTime + 30)`. -/
def skipForwardBtn (d t : ℚ) : ℚ := min d (t + 30)

/-- The `ArrowLeft` key handler (line 1137):
`currentTime = Math.max(0, currentTime - 5)`. -/
def arrowLeftSkip (t : ℚ) : ℚ := max 0 (t - 5)

/-- The `ArrowRight` key handler (line 1140):
`currentTime = Math.min(duration, currentTime + 5)`. -/
def arrowRightSkip (d t : ℚ) : ℚ := min d (t + 5)

/-- `seekTo(event)` (lines 1010-1014): `percent = (clientX - rect.left) /
rect.width; currentTime = percent * duration`, with no clamping. -/
def seekToTime (rectLeft rectWidth clientX d : ℚ) : ℚ :=
  ((clientX - rectLeft) / rectWidth) * d


/-- A concrete progress record for evaluation (stamped at epoch 0). -/
def sampleProgress : Progress := ⟨"book-1", 2, 10, 0⟩

/-- A concrete bookmark stored first, with the older `createdAt`. -/
def bmOld : Bookmark := ⟨"1", "bk", 0, "Chapter 1", 0, "first", 100⟩

/-- A concrete bookmark stored second, with the newer `createdAt`. -/
def bmNew : Bookmark := ⟨"2", "bk", 0, "Chapter 1", 5, "second", 200⟩

theorem scan_hit (t : ℚ) :
    ∀ (entries : List TimingEntry) (i i0 : Nat)
      (_ : SortedByStart entries) (_ : DisjointWindows entries)
      (h : i < entries.length),
      (entries.get ⟨i, h⟩).start ≤ t → t < (entries.get ⟨i, h⟩).stop →
      scanEntries t entries i0 = (i0 : Int) + i
  | [], i, i0, _, _, h => absurd h (by simp)
  | e :: rest, 0, i0, _, _, h => by
    intro h1 h2
    simp only [List.get] at h1 h2
    simp [scanEntries, h1, h2]
  | e :: rest, j + 1, i0, hsort, hdisj, h => by
    intro h1 h2
    simp only [List.get] at h1 h2
    have hj : j < rest.length := by simpa using h
    have hmem : rest.get ⟨j, hj⟩ ∈ rest := List.get_mem rest j hj
    have hsort' := (List.pairwise_cons.mp hsort).1 _ hmem
    have hdisj' := (List.pairwise_cons.mp hdisj).1 _ hmem
    have hb1 : ¬ (e.start ≤ t ∧ t < e.stop) := by
      intro hp
      exact hdisj' t ⟨hp.1, hp.2, h1, h2⟩
    have hb2 : ¬ (t < e.start) := not_lt.mpr (le_trans hsort' h1)
    rw [scanEntries, if_neg hb1, if_neg hb2,
      scan_hit t rest j (i0 + 1) (List.pairwise_cons.mp hsort).2
        (List.pairwise_cons.mp hdisj).2 hj h1 h2]
    push_cast
    ring

/-- C1: on a start-sorted, pairwise-disjoint timing map, any time inside
entry `i`'s `[start, end)` window is located at index `i` by
`highlightCurrentSentence`'s index computation. -/
theorem locate_in_window (entries : List TimingEntry) (i : Nat) (t : ℚ)
    (hsort : SortedByStart entries) (hdisj : DisjointWindows entries)
    (h : i < entries.length)
    (h1 : (entries.get ⟨i, h⟩).start ≤ t)
    (h2 : t < (entries.get ⟨i, h⟩).stop) :
    locate entries t = (i : Int) := by
  have hscan := scan_hit t entries i 0 hsort hdisj h h1 h2
  have hne : entries ≠ [] := by
    intro he
    rw [he] at h
    simp at h
  obtain ⟨last, hlast⟩ := Option.isSome_iff_exists.mp
    (List.getLast?_isSome.mpr hne)
  have hscan' : scanEntries t entries 0 = (i : Int) := by
    rw [hscan]
    push_cast
    ring
  simp only [locate, hscan', hlast]
  have hcond : ¬ ((i : Int) = -1 ∧ last.start ≤ t) := by
    intro hc
    omega
  rw [if_neg hcond]

/-- Witness for C1 at the spec's sample entries, `t = 1` inside entry A. -/
theorem locate_in_window_witness :
    SortedByStart [entryA, entryB] ∧ DisjointWindows [entryA, entryB] ∧
      locate [entryA, entryB] 1 = 0 := by
  have hsort : SortedByStart [entryA, entryB] := by
    simp only [SortedByStart, entryA, entryB, List.pairwise_cons,
      List.mem_singleton, List.not_mem_nil]
    refine ⟨?_, ?_, List.Pairwise.nil⟩
    · intro b hb
      subst hb
      norm_num
    · intro b hb
      simp at hb
  have hdisj : DisjointWindows [entryA, entryB] := by
    simp only [DisjointWindows, entryA, entryB, List.pairwise_cons,
      List.mem_singleton, List.not_mem_nil]
    refine ⟨?_, ?_, List.Pairwise.nil⟩
    · intro b hb u hu
      subst hb
      simp only at hu
      linarith [hu.1, hu.2.1, hu.2.2.1, hu.2.2.2]
    · intro b hb
      simp at hb
  refine ⟨hsort, hdisj, ?_⟩
  have := locate_in_window [entryA, entryB] 0 1 hsort hdisj (by simp)
    (by norm_num [entryA]) (by norm_num [entryA])
  simpa using this

theorem scan_gap (t : ℚ) :
    ∀ (entries : List TimingEntry) (i i0 : Nat)
      (_ : ∀ e ∈ entries, e.start < e.stop)
      (h : i < entries.length),
      (∀ j (hj : j < i), (entries.get ⟨j, hj.trans h⟩).stop ≤ t) →
      t < (entries.get ⟨i, h⟩).start →
      scanEntries t entries i0 =
        if 0 < i0 + i then (i0 : Int) + i - 1 else -1
  | [], i, i0, _, h => absurd h (by simp)
  | e :: rest, 0, i0, _, h => by
    intro _ hbefore
    simp only [List.get] at hbefore
    have hb1 : ¬ (e.start ≤ t ∧ t < e.stop) := fun hp => absurd hp.1 (not_le.mpr hbefore)
    rw [scanEntries, if_neg hb1, if_pos hbefore]
    simp only [Nat.add_zero]
    split
    · omega
    · rfl
  | e :: rest, j + 1, i0, hvalid, h => by
    intro hgap hbefore
    simp only [List.get] at hbefore
    have hj : j < rest.length := by simpa using h
    have hstop : e.stop ≤ t := by
      have := hgap 0 (Nat.succ_pos j)
      simpa using this
    have hvalide : e.start < e.stop := hvalid e (List.mem_cons_self e rest)
    have hb1 : ¬ (e.start ≤ t ∧ t < e.stop) := fun hp => absurd hstop (not_le.mpr hp.2)
    have hb2 : ¬ (t < e.start) := not_lt.mpr (le_of_lt (lt_of_lt_of_le hvalide hstop))
    have hgap' : ∀ j' (hj' : j' < j), (rest.get ⟨j', hj'.trans hj⟩).stop ≤ t := by
      intro j' hj'
      have := hgap (j' + 1) (Nat.succ_lt_succ hj')
      simpa using this
    have hvalid' : ∀ e' ∈ rest, e'.start < e'.stop := fun e' he' =>
      hvalid e' (List.mem_cons_of_mem e he')
    rw [scanEntries, if_neg hb1, if_neg hb2,
      scan_gap t rest j (i0 + 1) hvalid' hj hgap' hbefore]
    have e1 : 0 < i0 + 1 + j := by omega
    have e2 : 0 < i0 + (j + 1) := by omega
    rw [if_pos e1, if_pos e2]
    push_cast
    ring

/-- C2: when `t` lands in a gap strictly before entry `i` (past every
earlier entry's `end`), the locate computation returns `i - 1` for
`i > 0` and `-1` for `i = 0`: the previous entry stays current. -/
theorem locate_gap_prev (entries : List TimingEntry) (i : Nat) (t : ℚ)
    (hsort : SortedByStart entries)
    (hvalid : ∀ e ∈ entries, e.start < e.stop)
    (h : i < entries.length)
    (hgap : ∀ j (hj : j < i), (entries.get ⟨j, hj.trans h⟩).stop ≤ t)
    (hbefore : t < (entries.get ⟨i, h⟩).start) :
    locate entries t = if 0 < i then (i : Int) - 1 else -1 := by
  have hscan := scan_gap t entries i 0 hvalid h hgap hbefore
  have hne : entries ≠ [] := by
    intro he
    rw [he] at h
    simp at h
  obtain ⟨last, hlast⟩ := Option.isSome_iff_exists.mp
    (List.getLast?_isSome.mpr hne)
  rcases Nat.eq_zero_or_pos i with hi | hi
  · subst hi
    have hscan' : scanEntries t entries 0 = -1 := by
      rw [hscan]
      simp
    have hlastmem : last ∈ entries := by
      obtain ⟨hh, hx⟩ := List.mem_getLast?_eq_getLast hlast
      rw [hx]
      exact List.getLast_mem hh
    have hlaststart : t < last.start := by
      rcases entries with _ | ⟨e, rest⟩
      · exact absurd rfl hne
      · have hb : t < e.start := by simpa using hbefore
        rcases List.mem_cons.mp hlastmem with hl | hl
        · rw [hl]
          exact hb
        · exact lt_of_lt_of_le hb ((List.pairwise_cons.mp hsort).1 last hl)
    have hcond : ¬ ((-1 : Int) = -1 ∧ last.start ≤ t) := fun hc =>
      absurd hc.2 (not_le.mpr hlaststart)
    simp only [locate, hlast]
    rw [hscan', if_neg hcond]
    simp
  · have hscan' : scanEntries t entries 0 = (i : Int) - 1 := by
      rw [hscan, if_pos (by omega)]
      push_cast
      ring
    have hcond : ¬ ((i : Int) - 1 = -1 ∧ last.start ≤ t) := by
      intro hc
      omega
    simp only [locate, hlast]
    rw [hscan', if_neg hcond, if_pos hi]

/-- Witness for C2: the spec's gap vector, `locate(3)` on entries A, B
returns index of A. -/
theorem locate_gap_prev_witness : locate [entryA, entryB] 3 = 0 := by
  have h := locate_gap_prev [entryA, entryB] 1 3
    (by unfold SortedByStart; decide) (by decide) (by decide)
    (by
      intro j hj
      have : j = 0 := by omega
      subst this
      norm_num [entryA])
    (by norm_num [entryB])
  simpa using h

theorem scan_miss (t : ℚ) :
    ∀ (entries : List TimingEntry) (i0 : Nat),
      (∀ e ∈ entries, ¬ (e.start ≤ t ∧ t < e.stop)) →
      (∀ e ∈ entries, e.start ≤ t) →
      scanEntries t entries i0 = -1
  | [], _, _, _ => rfl
  | e :: rest, i0, hmiss, hstarted => by
    have hb1 : ¬ (e.start ≤ t ∧ t < e.stop) := hmiss e (List.mem_cons_self e rest)
    have hb2 : ¬ (t < e.start) := not_lt.mpr (hstarted e (List.mem_cons_self e rest))
    rw [scanEntries, if_neg hb1, if_neg hb2,
      scan_miss t rest (i0 + 1)
        (fun e' he' => hmiss e' (List.mem_cons_of_mem e he'))
        (fun e' he' => hstarted e' (List.mem_cons_of_mem e he'))]

/-- C3: on a non-empty sorted timing map, a time past every entry's
start that lies in no window (trailing silence) is located at the last
index. -/
theorem locate_trailing (entries : List TimingEntry) (t : ℚ)
    (hne : entries ≠ [])
    (_hsort : SortedByStart entries)
    (hmiss : ∀ e ∈ entries, ¬ (e.start ≤ t ∧ t < e.stop))
    (hstarted : ∀ e ∈ entries, e.start ≤ t) :
    locate entries t = (entries.length : Int) - 1 := by
  obtain ⟨last, hlast⟩ := Option.isSome_iff_exists.mp
    (List.getLast?_isSome.mpr hne)
  have hscan := scan_miss t entries 0 hmiss hstarted
  have hlastmem : last ∈ entries := by
    obtain ⟨hh, hx⟩ := List.mem_getLast?_eq_getLast hlast
    rw [hx]
    exact List.getLast_mem hh
  have hcond : (-1 : Int) = -1 ∧ last.start ≤ t := ⟨rfl, hstarted last hlastmem⟩
  simp only [locate, hlast]
  rw [hscan, if_pos hcond]

/-- Witness for C3: the spec's trailing vector, `locate(9)` on entries
A, B returns index of B. -/
theorem locate_trailing_witness : locate [entryA, entryB] 9 = 1 := by
  have h := locate_trailing [entryA, entryB] 9 (by decide)
    (by unfold SortedByStart; decide) (by decide) (by decide)
  simpa using h

theorem scan_range (t : ℚ) :
    ∀ (entries : List TimingEntry) (i0 : Nat),
      scanEntries t entries i0 = -1 ∨
      (0 < i0 ∧ scanEntries t entries i0 = (i0 : Int) - 1) ∨
      ((i0 : Int) ≤ scanEntries t entries i0 ∧
        scanEntries t entries i0 < (i0 : Int) + entries.length)
  | [], i0 => Or.inl rfl
  | e :: rest, i0 => by
    rw [scanEntries]
    split_ifs with hb1 hb2 hb3
    · refine Or.inr (Or.inr ⟨le_refl _, ?_⟩)
      have hlen : (0 : Int) < ((e :: rest).length : Int) := by
        exact_mod_cast Nat.succ_pos rest.length
      omega
    · refine Or.inr (Or.inl ⟨hb3, ?_⟩)
      rfl
    · exact Or.inl rfl
    · rcases scan_range t rest (i0 + 1) with h | ⟨_, h⟩ | ⟨h1, h2⟩
      · exact Or.inl h
      · refine Or.inr (Or.inr ?_)
        have hl : ((e :: rest).length : Int) = (rest.length : Int) + 1 := by
          push_cast [List.length_cons]
          ring
        push_cast at h
        constructor <;> omega
      · refine Or.inr (Or.inr ?_)
        have hl : ((e :: rest).length : Int) = (rest.length : Int) + 1 := by
          push_cast [List.length_cons]
          ring
        push_cast at h1 h2
        constructor <;> omega

/-- C10: the locate computation always terminates (it is structurally
recursive) with `-1` or an in-bounds index, and on an empty entries
list always with `-1`. -/
theorem locate_range (entries : List TimingEntry) (t : ℚ) :
    (locate entries t = -1 ∨
      (0 ≤ locate entries t ∧ locate entries t < entries.length)) ∧
    locate ([] : List TimingEntry) t = -1 := by
  constructor
  · rcases hl : entries.getLast? with - | last
    · have : entries = [] := List.getLast?_eq_none_iff.mp hl
      subst this
      exact Or.inl rfl
    · have hlen : entries ≠ [] := by
        intro he
        subst he
        simp at hl
      have hpos : 0 < entries.length := List.length_pos.mpr hlen
      simp only [locate, hl]
      split_ifs with hc
      · refine Or.inr ⟨?_, ?_⟩ <;> omega
      · rcases scan_range t entries 0 with h | ⟨h0, _⟩ | ⟨h1, h2⟩
        · rw [h]
          exact Or.inl rfl
        · omega
        · refine Or.inr ⟨?_, ?_⟩ <;> omega
  · rfl

theorem checkSleepTimer_idle (now : Int) :
    checkSleepTimer idleTimer now = (idleTimer, false) := rfl

theorem runTicks_idle (now : Int) :
    ∀ n, runTicks idleTimer now n = (idleTimer, 0)
  | 0 => rfl
  | n + 1 => by
    simp only [runTicks, checkSleepTimer_idle, runTicks_idle (now + 1000) n]
    rfl

theorem checkSleepTimer_running (e now : Int) (hgt : now < e) :
    checkSleepTimer ⟨some e, some SleepMode.minutes⟩ now =
      (⟨some e, some SleepMode.minutes⟩, false) := by
  unfold checkSleepTimer
  split_ifs with h1 h2 h3
  · rfl
  · exfalso
    simp only [Option.getD_some] at h3
    omega
  · rfl
  · rfl

theorem checkSleepTimer_fire (e now : Int) (he : e ≠ 0) (hle : e ≤ now) :
    checkSleepTimer ⟨some e, some SleepMode.minutes⟩ now = (idleTimer, true) := by
  unfold checkSleepTimer
  split_ifs with h1 h2 h3
  · exfalso
    have he' : e = 0 := by simpa [endFalsy] using h1.1
    exact he he'
  · rfl
  · exfalso
    simp only [Option.getD_some] at h3
    omega
  · exfalso
    exact h2 rfl

theorem runTicks_countdown (k : Nat) :
    ∀ (m : Nat) (now : Int), 0 < now + 1000 * ((k : Int) + 1) →
      runTicks ⟨some (now + 1000 * ((k : Int) + 1)), some SleepMode.minutes⟩
        now ((k + 1) + m) = (idleTimer, 1) := by
  induction k with
  | zero =>
    intro m now hpos
    have hz : now + 1000 * (((0 : Nat) : Int) + 1) = now + 1000 := by
      push_cast
      ring
    rw [hz] at hpos ⊢
    have hfire := checkSleepTimer_fire (now + 1000) (now + 1000) (by omega) (le_refl _)
    have hm : (0 + 1) + m = m + 1 := by omega
    rw [hm]
    simp only [runTicks, hfire, runTicks_idle]
    rfl
  | succ k ih =>
    intro m now hpos
    have hz : now + 1000 * (((k + 1 : Nat) : Int) + 1) =
        (now + 1000) + 1000 * ((k : Int) + 1) := by
      push_cast
      ring
    rw [hz] at hpos ⊢
    have hrun := checkSleepTimer_running ((now + 1000) + 1000 * ((k : Int) + 1))
      (now + 1000) (by omega)
    have hstep : ((k + 1) + 1) + m = ((k + 1) + m) + 1 := by omega
    rw [hstep]
    simp only [runTicks, hrun]
    rw [ih m (now + 1000) (by omega)]
    rfl

/-- C5: from any starting state, `setSleepTimer(5)` at a nonnegative
clock followed by 300 (or more) one-second ticks fires exactly one pause
event, after which the timer is idle. -/
theorem sleepTimer_five_minutes (s0 : SleepTimerState) (now0 : Int) (m : Nat)
    (hclock : 0 ≤ now0) :
    runTicks (setSleepTimer s0 (SleepSetting.minutes 5) now0) now0 (300 + m) =
      (idleTimer, 1) := by
  have hset : setSleepTimer s0 (SleepSetting.minutes 5) now0 =
      ⟨some (now0 + 1000 * (((299 : Nat) : Int) + 1)), some SleepMode.minutes⟩ := by
    simp only [setSleepTimer, cancelSleepTimer]
    norm_num
  have hn : (300 : Nat) + m = (299 + 1) + m := by omega
  rw [hset, hn]
  exact runTicks_countdown 299 m now0 (by push_cast; omega)

/-- Witness for C5 at `now0 = 0`, `m = 0`. -/
theorem sleepTimer_five_minutes_witness :
    (0 : Int) ≤ 0 ∧
      runTicks (setSleepTimer idleTimer (SleepSetting.minutes 5) 0) 0 300 =
        (idleTimer, 1) := by
  refine ⟨le_refl 0, ?_⟩
  have h := sleepTimer_five_minutes idleTimer 0 0 (le_refl 0)
  simpa using h

/-- C4 (amended): `onChapterEnd` cancels a latched end-of-chapter timer
with no auto-advance; otherwise advances when a next chapter exists and
resumes playback; otherwise does nothing (no book-finished signal). -/
theorem onChapterEnd_spec (s : SleepTimerState) (cur n : Nat) :
    (s.sleepTimerMode = some SleepMode.chapter →
      onChapterEnd s cur n = (idleTimer, ChapterEndAction.nothing)) ∧
    (s.sleepTimerMode ≠ some SleepMode.chapter → cur < n - 1 →
      onChapterEnd s cur n = (s, ChapterEndAction.advance (cur + 1))) ∧
    (s.sleepTimerMode ≠ some SleepMode.chapter → ¬ cur < n - 1 →
      onChapterEnd s cur n = (s, ChapterEndAction.nothing)) := by
  refine ⟨fun h1 => ?_, fun h1 h2 => ?_, fun h1 h2 => ?_⟩
  · simp [onChapterEnd, h1, cancelSleepTimer, idleTimer]
  · simp [onChapterEnd, h1, h2]
  · simp [onChapterEnd, h1, h2]

/-- Witness for C4's amended statement: all three branches at concrete
states. -/
theorem onChapterEnd_spec_witness :
    onChapterEnd ⟨none, some SleepMode.chapter⟩ 0 3 =
        (idleTimer, ChapterEndAction.nothing) ∧
      onChapterEnd idleTimer 0 3 = (idleTimer, ChapterEndAction.advance 1) ∧
      onChapterEnd idleTimer 2 3 = (idleTimer, ChapterEndAction.nothing) := by
  refine ⟨(onChapterEnd_spec _ 0 3).1 rfl, ?_, ?_⟩
  · exact (onChapterEnd_spec idleTimer 0 3).2.1 (by decide) (by decide)
  · exact (onChapterEnd_spec idleTimer 2 3).2.2 (by decide) (by decide)

/-- C4 counterexample: at the last chapter with no latched timer, the
code emits nothing — not the book-finished signal the spec requires. -/
theorem onChapterEnd_no_finish_signal :
    onChapterEnd idleTimer 0 1 = (idleTimer, ChapterEndAction.nothing) ∧
      ChapterEndAction.nothing ≠ ChapterEndAction.bookFinished := by
  constructor
  · rfl
  · decide

/-- C6: `getSavedProgress` yields nothing when no record exists or the
record is stale past the 30-day TTL; a 29-day-old record comes back
unchanged and a 31-day-old one does not. -/
theorem getSavedProgress_ttl (stored : Option Progress) (now : Int) :
    (stored = none → getSavedProgress stored now = none) ∧
    (∀ p, stored = some p → progressTTLMs < now - p.updatedAt →
      getSavedProgress stored now = none) ∧
    (∀ p, stored = some p → now - p.updatedAt = 29 * 24 * 60 * 60 * 1000 →
      getSavedProgress stored now = some p) ∧
    (∀ p, stored = some p → now - p.updatedAt = 31 * 24 * 60 * 60 * 1000 →
      getSavedProgress stored now = none) := by
  refine ⟨fun h => by simp [h, getSavedProgress], fun p hp hstale => ?_,
    fun p hp hfresh => ?_, fun p hp hold => ?_⟩
  · subst hp
    simp only [getSavedProgress]
    rw [if_neg]
    unfold progressTTLMs at hstale ⊢
    omega
  · subst hp
    simp only [getSavedProgress]
    rw [if_pos]
    unfold progressTTLMs
    omega
  · subst hp
    simp only [getSavedProgress]
    rw [if_neg]
    unfold progressTTLMs
    omega

/-- Witness for C6: a record stamped at epoch 0 queried at 29 and 31
days, and an absent record. -/
theorem getSavedProgress_ttl_witness :
    getSavedProgress none 5 = none ∧
      getSavedProgress (some sampleProgress) (29 * 24 * 60 * 60 * 1000) =
        some sampleProgress ∧
      getSavedProgress (some sampleProgress) (31 * 24 * 60 * 60 * 1000) = none := by
  refine ⟨(getSavedProgress_ttl none 5).1 rfl, ?_, ?_⟩
  · exact (getSavedProgress_ttl _ _).2.2.1 sampleProgress rfl
      (by norm_num [sampleProgress])
  · exact (getSavedProgress_ttl _ _).2.2.2 sampleProgress rfl
      (by norm_num [sampleProgress])

/-- C7 counterexample: two bookmarks of one book stored oldest-first are
listed in stored order, which is not `createdAt`-descending. -/
theorem listForBook_not_sorted_desc :
    bookBookmarks [bmOld, bmNew] "bk" = [bmOld, bmNew] ∧
      ¬ SortedByCreatedAtDesc (bookBookmarks [bmOld, bmNew] "bk") := by
  constructor
  · rfl
  · intro h
    have hrel := (List.pairwise_cons.mp (by
      unfold SortedByCreatedAtDesc at h
      rw [show bookBookmarks [bmOld, bmNew] "bk" = [bmOld, bmNew] from rfl] at h
      exact h)).1 bmNew (List.mem_singleton.mpr rfl)
    norm_num [bmOld, bmNew] at hrel

/-- C7 (amended): each per-book listing is the `bookId` filter of the
stored records — a stored-order sublist containing exactly the records
of that book, with no re-sorting by `createdAt`. -/
theorem listForBook_filter_spec (bms : List Bookmark) (ns : List Note)
    (hls : List Highlight) (bid : String) :
    ((bookBookmarks bms bid).Sublist bms ∧
      ∀ b, b ∈ bookBookmarks bms bid ↔ b ∈ bms ∧ b.bookId = bid) ∧
    ((bookNotes ns bid).Sublist ns ∧
      ∀ x, x ∈ bookNotes ns bid ↔ x ∈ ns ∧ x.bookId = bid) ∧
    ((bookHighlights hls bid).Sublist hls ∧
      ∀ x, x ∈ bookHighlights hls bid ↔ x ∈ hls ∧ x.bookId = bid) := by
  refine ⟨⟨List.filter_sublist _, fun b => ?_⟩,
    ⟨List.filter_sublist _, fun x => ?_⟩,
    ⟨List.filter_sublist _, fun x => ?_⟩⟩ <;>
    simp [bookBookmarks, bookNotes, bookHighlights, List.mem_filter]

/-- C8: persisting the consolidated document after a mutation and
reloading it restores exactly the in-memory record sets, every field
intact. -/
theorem bookData_roundtrip (s s0 : AnnState) (h : Highlight) :
    loadBookData (some (saveBookData (addHighlight s h))) s0 = addHighlight s h ∧
      ∀ s1, loadBookData (some (saveBookData s1)) s0 = s1 := by
  constructor
  · rfl
  · intro s1
    rfl

/-- C9 counterexample: a progress-bar seek with the pointer left of the
bar computes a negative time — `seekTo` does not clamp. -/
theorem seekTo_unclamped :
    seekToTime 100 200 50 10 = -5/2 ∧ ¬ ((0 : ℚ) ≤ -5/2) := by
  constructor
  · norm_num [seekToTime]
  · norm_num

/-- C9 (amended): the four skip handlers keep a position in `[0, d]`
within `[0, d]`; the progress-bar seek is the unclamped exception. -/
theorem skip_clamped (t d : ℚ) (h0 : 0 ≤ t) (hd : t ≤ d) :
    (0 ≤ skipBackBtn t ∧ skipBackBtn t ≤ d) ∧
    (0 ≤ skipForwardBtn d t ∧ skipForwardBtn d t ≤ d) ∧
    (0 ≤ arrowLeftSkip t ∧ arrowLeftSkip t ≤ d) ∧
    (0 ≤ arrowRightSkip d t ∧ arrowRightSkip d t ≤ d) := by
  have hd0 : (0 : ℚ) ≤ d := le_trans h0 hd
  refine ⟨⟨le_max_left _ _, max_le hd0 (by linarith)⟩,
    ⟨le_min hd0 (by linarith), min_le_left _ _⟩,
    ⟨le_max_left _ _, max_le hd0 (by linarith)⟩,
    ⟨le_min hd0 (by linarith), min_le_left _ _⟩⟩

/-- Witness for C9's amended statement at `t = 3`, `d = 10`. -/
theorem skip_clamped_witness :
    (0 : ℚ) ≤ 3 ∧ (3 : ℚ) ≤ 10 ∧
      0 ≤ skipBackBtn 3 ∧ skipBackBtn 3 ≤ 10 ∧
      0 ≤ skipForwardBtn 10 3 ∧ skipForwardBtn 10 3 ≤ 10 := by
  have h := skip_clamped 3 10 (by norm_num) (by norm_num)
  exact ⟨by norm_num, by norm_num, h.1.1, h.1.2, h.2.1.1, h.2.1.2⟩

end Reader
